import Mathlib

/-!
Verification of the POST-GERAL ingestion → deduplication → rendering pipeline.

The repository consists of two Python modules:
* `app.py` — the image compositor (`criar_imagem_post`), its helpers
  (`processar_texto`, `carregar_fonte`, `hex_para_rgb`) and the dashboard-side
  feed helpers (`processar_feed_rss`, `processar_json_noticias`);
* `auto_post.py` — the polling robot (`iniciar_automacao`) with its ledger
  accessors (`carregar_links_postados_db`, `salvar_link_postado_db`) and feed
  fetchers (`processar_feed_rss`, `processar_feed_json`).

This file gives a shallow embedding of those functions and proves or refutes
the frozen claims about them.  Python exceptions that a surrounding
`try/except` converts into an early empty/None result are modelled with
`Option`; Python sets and database tables keyed by a unique column are
modelled with duplicate-free `List String` membership; network payloads are
passed as already-fetched data.  External libraries (PIL, BeautifulSoup,
feedparser) are modelled by the observables the code reads from them.
-/

/-- Truthiness of an optional Python string: `None` and `""` are falsy. -/
def sTruthy : Option String → Bool
  | none => false
  | some s => s != ""

/-- Python `a or b` on optional strings: yields `b` whenever `a` is falsy. -/
def pyOrS (a b : Option String) : Option String :=
  if sTruthy a then a else b

/-- Character-level view of a Python string, used where the code inspects
characters (`str.split`, `' '.join`, `.upper`). -/
abbrev PyStr := List Char

/-- Python `str.upper()`. -/
def pyUpper (s : PyStr) : PyStr := s.map Char.toUpper

/-- Python `str.split()` with no argument: split on whitespace runs and drop
the empty chunks. -/
def pySplit (s : PyStr) : List PyStr :=
  (s.splitOnP (fun c => c.isWhitespace)).filter (fun w => decide (w ≠ []))

/-- Python `' '.join(ws)`. -/
def joinSp (ws : List PyStr) : PyStr := List.intercalate [' '] ws

namespace App

/-- One step of the greedy wrap loop of `app.py::processar_texto`: append the
word to the current line; if the measured width of the joined test line
exceeds the maximum, pop the word, emit the previous line and restart the
current line with the word. -/
def wrapStep (fonte : PyStr → Nat) (largura_maxima : Nat)
    (st : List (List PyStr) × List PyStr) (palavra : PyStr) :
    List (List PyStr) × List PyStr :=
  if largura_maxima < fonte (joinSp (st.2 ++ [palavra])) then
    (st.1 ++ [st.2], [palavra])
  else
    (st.1, st.2 ++ [palavra])

/-- The produced lines of the wrap loop, kept as word lists (each emitted
line is the `' '.join` of one of these). The trailing non-empty current line
is flushed at the end (`if linha_atual: linhas.append(...)`). -/
def wrapLines (fonte : PyStr → Nat) (largura_maxima : Nat) (texto : PyStr) :
    List (List PyStr) :=
  let st := (pySplit texto).foldl (wrapStep fonte largura_maxima) ([], [])
  if st.2 = [] then st.1 else st.1 ++ [st.2]

/-- `app.py::processar_texto(texto, largura_maxima, fonte)`: greedy word wrap
driven by a glyph-width measurement `fonte` (`draw.textsize(..., font)[0]`). -/
def processar_texto (fonte : PyStr → Nat) (largura_maxima : Nat) (texto : PyStr) :
    List PyStr :=
  (wrapLines fonte largura_maxima texto).map joinSp

end App

/-! ### Word-wrap support lemmas -/

theorem joinSp_nil : joinSp [] = [] := rfl

theorem joinSp_single (w : PyStr) : joinSp [w] = w := by
  simp [joinSp, List.intercalate]

theorem joinSp_cons_cons (w v : PyStr) (ws : List PyStr) :
    joinSp (w :: v :: ws) = w ++ ' ' :: joinSp (v :: ws) := by
  simp [joinSp, List.intercalate, List.intersperse]

/-- Chunks produced by `pySplit` are non-empty and whitespace-free. -/
theorem pySplit_sound (s : PyStr) :
    ∀ w ∈ pySplit s, w ≠ [] ∧ ∀ c ∈ w, c.isWhitespace = false := by
  have key : ∀ t : PyStr, ∀ w ∈ t.splitOnP (fun c => c.isWhitespace),
      ∀ c ∈ w, c.isWhitespace = false := by
    intro t
    induction t with
    | nil =>
      intro w hw c hc
      simp [List.splitOnP_nil] at hw
      subst hw
      exact absurd hc (List.not_mem_nil c)
    | cons a t ih =>
      intro w hw c hc
      rw [List.splitOnP_cons] at hw
      by_cases ha : a.isWhitespace
      · rw [if_pos ha] at hw
        rcases List.mem_cons.mp hw with h | h
        · subst h; exact absurd hc (List.not_mem_nil c)
        · exact ih w h c hc
      · rw [if_neg ha] at hw
        rcases hsp : t.splitOnP (fun c => c.isWhitespace) with _ | ⟨h0, rest⟩
        · exact absurd hsp (List.splitOnP_ne_nil _ t)
        · rw [hsp] at hw
          simp only [List.modifyHead] at hw
          rcases List.mem_cons.mp hw with h | h
          · subst h
            rcases List.mem_cons.mp hc with h | h
            · subst h; exact Bool.of_not_eq_true ha
            · exact ih h0 (by rw [hsp]; exact List.mem_cons_self _ _) c h
          · exact ih w (by rw [hsp]; exact List.mem_cons_of_mem _ h) c hc
  intro w hw
  have h1 := List.mem_filter.mp hw
  exact ⟨of_decide_eq_true h1.2, key s w h1.1⟩

/-- Splitting the space-join of non-empty whitespace-free words returns the
words. -/
theorem pySplit_joinSp :
    ∀ ws : List PyStr, (∀ w ∈ ws, w ≠ [] ∧ ∀ c ∈ w, c.isWhitespace = false) →
      pySplit (joinSp ws) = ws
  | [], _ => by simp [pySplit, joinSp, List.intercalate, List.splitOnP_nil]
  | [w], h => by
    have hw := h w (List.mem_singleton.mpr rfl)
    rw [joinSp_single]
    unfold pySplit
    rw [List.splitOnP_eq_single _ _ (fun c hc => by simp [hw.2 c hc])]
    simp [hw.1]
  | w :: v :: ws, h => by
    have hw := h w (List.mem_cons_self _ _)
    have hrest : ∀ u ∈ v :: ws, u ≠ [] ∧ ∀ c ∈ u, c.isWhitespace = false :=
      fun u hu => h u (List.mem_cons_of_mem _ hu)
    have ih := pySplit_joinSp (v :: ws) hrest
    rw [joinSp_cons_cons]
    unfold pySplit
    rw [List.splitOnP_first _ w (fun c hc => by simp [hw.2 c hc]) ' '
      (by decide) (joinSp (v :: ws))]
    unfold pySplit at ih
    have hkeep : (decide (w ≠ [])) = true := by simp [hw.1]
    rw [List.filter_cons, if_pos hkeep, ih]

/-- Words are neither lost, duplicated nor reordered by the wrap fold: the
flattened accumulated lines plus the current line always equal the words
consumed so far. -/
theorem wrapFold_content (f : PyStr → Nat) (lm : Nat) :
    ∀ (ps : List PyStr) (st : List (List PyStr) × List PyStr),
      ((ps.foldl (App.wrapStep f lm) st).1.flatten ++
          (ps.foldl (App.wrapStep f lm) st).2)
        = st.1.flatten ++ st.2 ++ ps
  | [], st => by simp
  | p :: ps, st => by
    have ih := wrapFold_content f lm ps (App.wrapStep f lm st p)
    rw [List.foldl_cons, ih]
    unfold App.wrapStep
    split
    · simp [List.flatten_append, List.append_assoc]
    · simp [List.append_assoc]

/-- Every accumulated line of two or more words was measured when its last
word was appended, hence fits the maximum width; the same holds for the
current line. -/
theorem wrapFold_good (f : PyStr → Nat) (lm : Nat) :
    ∀ (ps : List PyStr) (st : List (List PyStr) × List PyStr),
      (∀ ws ∈ st.1, 2 ≤ ws.length → f (joinSp ws) ≤ lm) →
      (2 ≤ st.2.length → f (joinSp st.2) ≤ lm) →
      (∀ ws ∈ (ps.foldl (App.wrapStep f lm) st).1, 2 ≤ ws.length →
          f (joinSp ws) ≤ lm)
        ∧ (2 ≤ (ps.foldl (App.wrapStep f lm) st).2.length →
            f (joinSp (ps.foldl (App.wrapStep f lm) st).2) ≤ lm)
  | [], st, h1, h2 => ⟨h1, h2⟩
  | p :: ps, st, h1, h2 => by
    rw [List.foldl_cons]
    unfold App.wrapStep
    split
    · refine wrapFold_good f lm ps _ ?_ ?_
      · intro ws hws hlen
        rcases List.mem_append.mp hws with h | h
        · exact h1 ws h hlen
        · rw [List.mem_singleton.mp h]
          exact h2 (by rw [← List.mem_singleton.mp h]; exact hlen)
      · intro hlen
        simp at hlen
    · refine wrapFold_good f lm ps _ h1 ?_
      intro _
      have hle : f (joinSp (st.2 ++ [p])) ≤ lm := by omega
      exact hle

/-- The word lists behind the produced lines flatten to exactly the split
words of the input. -/
theorem wrapLines_flatten (f : PyStr → Nat) (lm : Nat) (t : PyStr) :
    (App.wrapLines f lm t).flatten = pySplit t := by
  have hcontent := wrapFold_content f lm (pySplit t) ([], [])
  simp only [App.wrapLines]
  by_cases hc : ((pySplit t).foldl (App.wrapStep f lm) ([], [])).2 = []
  · rw [if_pos hc]
    rw [hc] at hcontent
    simpa using hcontent
  · rw [if_neg hc, List.flatten_append]
    simpa using hcontent

/-- Every word appearing in a produced line is one of the split words of the
input, hence non-empty and whitespace-free. -/
theorem wrapLines_words (f : PyStr → Nat) (lm : Nat) (t : PyStr) :
    ∀ ws ∈ App.wrapLines f lm t, ∀ w ∈ ws,
      w ≠ [] ∧ ∀ c ∈ w, c.isWhitespace = false := by
  intro ws hws w hw
  apply pySplit_sound t
  rw [← wrapLines_flatten f lm t]
  exact List.mem_flatten.mpr ⟨ws, hws, hw⟩

/-- Every produced line of at least two words fits the maximum width. -/
theorem wrapLines_good (f : PyStr → Nat) (lm : Nat) (t : PyStr) :
    ∀ ws ∈ App.wrapLines f lm t, 2 ≤ ws.length → f (joinSp ws) ≤ lm := by
  intro ws hws hlen
  have hgood := wrapFold_good f lm (pySplit t) ([], [])
    (fun ws h => absurd h (List.not_mem_nil ws)) (by intro h; simp at h)
  simp only [App.wrapLines] at hws
  by_cases hc : ((pySplit t).foldl (App.wrapStep f lm) ([], [])).2 = []
  · rw [if_pos hc] at hws
    exact hgood.1 ws hws hlen
  · rw [if_neg hc] at hws
    rcases List.mem_append.mp hws with h | h
    · exact hgood.1 ws h hlen
    · rw [List.mem_singleton.mp h]
      exact hgood.2 (by rw [← List.mem_singleton.mp h]; exact hlen)

/-- Claim C4 (counterexample): with glyph width = character count and maximum
width 3, the input `"abcdef"` produces the line `"abcdef"`, whose measured
width 6 exceeds the maximum — the claimed bound fails for a single word wider
than the panel. -/
theorem claim4_counterexample :
    ("abcdef".toList ∈ App.processar_texto List.length 3 "abcdef".toList)
      ∧ 3 < List.length "abcdef".toList := by
  decide

/-- Claim C4 (amended): for every input string, every maximum width and every
width measurement, every produced line containing at least two words has
measured width at most the maximum; only lines consisting of a single
(oversized) word, or the empty line emitted before one, may exceed it. -/
theorem claim4_wrap_width_bound (fonte : PyStr → Nat) (lm : Nat) (texto : PyStr) :
    ∀ l ∈ App.processar_texto fonte lm texto, 2 ≤ (pySplit l).length →
      fonte l ≤ lm := by
  intro l hl hlen
  unfold App.processar_texto at hl
  rcases List.mem_map.mp hl with ⟨ws, hws, rfl⟩
  rw [pySplit_joinSp ws (wrapLines_words fonte lm texto ws hws)] at hlen
  exact wrapLines_good fonte lm texto ws hws hlen

/-- Witness for C4 at a concrete input: the two-word line `"ab cd"` produced
for width 5 measures within the bound. -/
theorem claim4_wrap_width_bound_witness :
    List.length ("ab cd".toList) ≤ 5 :=
  claim4_wrap_width_bound List.length 5 ("ab cd".toList) ("ab cd".toList)
    (by decide) (by decide)

/-- Claim C10: word-wrapping preserves content — re-splitting every produced
line and concatenating, in order, yields exactly the whitespace-split words
of the input; no word is dropped, duplicated or reordered. -/
theorem claim10_wrap_preserves_words (fonte : PyStr → Nat) (lm : Nat)
    (texto : PyStr) :
    ((App.processar_texto fonte lm texto).map pySplit).flatten
      = pySplit texto := by
  unfold App.processar_texto
  rw [List.map_map]
  have hcongr : (App.wrapLines fonte lm texto).map (pySplit ∘ joinSp)
      = (App.wrapLines fonte lm texto).map id :=
    List.map_congr_left (fun ws hws => by
      simpa using pySplit_joinSp ws (wrapLines_words fonte lm texto ws hws))
  rw [hcongr, List.map_id, wrapLines_flatten]

/-! ### JSON payload model (shared by `auto_post.py` and `app.py`) -/

/-- One JSON feed entry, viewed through the string fields the code reads with
`item.get(...)`. `none` = key absent. Entries are JSON objects; the code
never indexes anything else inside an entry. -/
structure JEntry where
  link : Option String
  url : Option String
  title : Option String
  summary : Option String
  description : Option String
  content : Option String
  date : Option String
  image : Option String
deriving DecidableEq

/-- A JSON value sitting under the `items`/`articles` key: either an array of
entries or some other value carrying only its Python truthiness. -/
inductive JVal where
  | jlist (xs : List JEntry)
  | jother (truthy : Bool)
deriving DecidableEq

/-- Python truthiness of `d.get(key)`: absent keys give `None` (falsy), an
empty array is falsy. -/
def jTruthy : Option JVal → Bool
  | none => false
  | some (.jlist xs) => decide (xs ≠ [])
  | some (.jother t) => t

/-- Python `a or b` on optional JSON values. -/
def pyOrJ (a b : Option JVal) : Option JVal :=
  if jTruthy a then a else b

/-- The top-level JSON document: an array of entries, or an object with its
(optional) `items` and `articles` members. -/
inductive JTop where
  | tlist (xs : List JEntry)
  | tobj (items : Option JVal) (articles : Option JVal)
deriving DecidableEq

namespace App

/-- The dictionary `app.py` builds per news item (keys `titulo`, `resumo`,
`link`, `data`, `imagem`; the last may be Python `None` for RSS items). -/
structure Noticia where
  titulo : String
  resumo : String
  link : String
  data : String
  imagem : Option String
deriving DecidableEq

/-- `app.py::processar_json_noticias(url_json, limite)` after the payload was
fetched and decoded. A top-level array is sliced and mapped; on a top-level
object `dados[:limite]` raises `TypeError`, which the enclosing `except`
turns into `[]`. -/
def processar_json_noticias (dados : JTop) (limite : Nat) : List Noticia :=
  match dados with
  | .tlist xs =>
    (xs.take limite).map (fun item =>
      ⟨item.title.getD "", item.summary.getD "", item.link.getD "",
        item.date.getD "", some (item.image.getD "")⟩)
  | .tobj _ _ => []

/-! ### BeautifulSoup RSS model (`app.py::processar_feed_rss`) -/

/-- An `<img>` tag found in an item's HTML body, with its optional `src`. -/
structure ImgTag where
  src : Option String
deriving DecidableEq

/-- Abstraction of an HTML fragment as BeautifulSoup exposes it to this code:
its text and the first `<img>` tag (if any). -/
structure Html where
  text : String
  firstImg : Option ImgTag
deriving DecidableEq

/-- A `media:content` tag with its optional `url` attribute. -/
structure MediaContent where
  url : Option String
deriving DecidableEq

/-- An `enclosure` tag with its optional `type` and `url` attributes. -/
structure Enclosure where
  typeAttr : Option String
  url : Option String
deriving DecidableEq

/-- One `<item>` of the RSS document, through the tags the code looks up. -/
structure RssItem where
  title : Option String
  description : Option Html
  link : Option String
  pubDate : Option String
  mediaContent : Option MediaContent
  enclosure : Option Enclosure
  contentEncoded : Option Html
deriving DecidableEq

/-- Python `'needle' in hay` on strings. -/
def strContains (hay needle : String) : Bool :=
  decide (needle.toList <:+: hay.toList)

/-- The image-resolution cascade of `app.py::processar_feed_rss`:
`media:content` url, else an `enclosure` whose `type` contains `"image"`,
else the first `<img>` of `content:encoded` (falling back to the
description) — each later step only fires while `imagem` is still falsy. -/
def resolveImagem (e : RssItem) : Option String :=
  let imagem : Option String := none
  let imagem : Option String :=
    match e.mediaContent with
    | some mc => if sTruthy mc.url then mc.url else imagem
    | none => imagem
  let imagem : Option String :=
    if sTruthy imagem then imagem else
      match e.enclosure with
      | some en =>
        if strContains (en.typeAttr.getD "") "image" then en.url else imagem
      | none => imagem
  let imagem : Option String :=
    if sTruthy imagem then imagem else
      match (match e.contentEncoded with
             | some h => some h
             | none => e.description) with
      | some h =>
        match h.firstImg with
        | some img => img.src
        | none => imagem
      | none => imagem
  imagem

/-- The dictionary built for one RSS item (`'Sem título'` fallback for a
missing title; every item is appended, with `imagem` possibly `None`). -/
def mkNoticiaRss (e : RssItem) : Noticia :=
  ⟨e.title.getD "Sem título",
    (e.description.map Html.text).getD "",
    e.link.getD "",
    e.pubDate.getD "",
    resolveImagem e⟩

/-- `app.py::processar_feed_rss(url_feed, limite)` after fetch and parse:
`soup.find_all('item')[:limite]` mapped through the item normalizer. -/
def processar_feed_rss (items : List RssItem) (limite : Nat) : List Noticia :=
  (items.take limite).map mkNoticiaRss

end App

namespace AutoPost

/-- The dictionary `auto_post.py` queues for rendering. -/
structure Post where
  titulo : String
  texto : String
  link : String
deriving DecidableEq

/-- A feedparser entry, through the keys the code reads with `entry.get`. -/
structure FPEntry where
  link : Option String
  title : Option String
  summary : Option String
  description : Option String
deriving DecidableEq

/-- The per-entry body of `auto_post.py::processar_feed_rss`: read fields,
skip entries with a falsy required field (`if not all([...]): continue`),
and keep only links not in the posted-links set. -/
def mkPostRss (links_postados : List String) (e : FPEntry) : Option Post :=
  match e.link, e.title, pyOrS e.summary (some (e.description.getD "")) with
  | some l, some t, some x =>
    if l != "" && t != "" && x != "" then
      (if l ∈ links_postados then none else some ⟨t, x, l⟩)
    else none
  | _, _, _ => none

/-- `auto_post.py::processar_feed_rss(feed_url, links_postados)` after
`feedparser.parse`: a bozo feed yields `[]`, otherwise each entry is
normalized or skipped. -/
def processar_feed_rss (bozo : Bool) (entries : List FPEntry)
    (links_postados : List String) : List Post :=
  if bozo then [] else entries.filterMap (mkPostRss links_postados)

/-- The per-entry body of `auto_post.py::processar_feed_json`:
`link or url`, `title`, `summary or description or content-with-''-default`,
the same falsy-field skip, then the dedup filter. -/
def mkPostJson (links_postados : List String) (e : JEntry) : Option Post :=
  match pyOrS e.link e.url, e.title,
      pyOrS e.summary (pyOrS e.description (some (e.content.getD ""))) with
  | some l, some t, some x =>
    if l != "" && t != "" && x != "" then
      (if l ∈ links_postados then none else some ⟨t, x, l⟩)
    else none
  | _, _, _ => none

/-- `auto_post.py::processar_feed_json(feed_url, links_postados)` after the
HTTP fetch. `none` = request/decoding failure (`[]` via `except`). On a
top-level array, `noticias.get('items')` raises `AttributeError`, which the
generic `except` also turns into `[]`. On an object, the selected
`items`/`articles`/whole-object value (Python `or` chain) must be a list —
the object itself never is — or the `isinstance` guard returns `[]`. -/
def processar_feed_json (payload : Option JTop) (links_postados : List String) :
    List Post :=
  match payload with
  | none => []
  | some (.tlist _) => []
  | some (.tobj itemsF articlesF) =>
    match pyOrJ itemsF (pyOrJ articlesF (some (.jother true))) with
    | some (.jlist items) => items.filterMap (mkPostJson links_postados)
    | _ => []

/-- Content of one registered feed, as the cycle fetches it (`feed['tipo']`
selects the parser). -/
inductive FeedContent where
  | rss (bozo : Bool) (entries : List FPEntry)
  | json (payload : Option JTop)
deriving DecidableEq

/-- A row of the `feeds` table joined with its fetched content. -/
structure Feed where
  url : String
  content : FeedContent
deriving DecidableEq

/-- The fields of a client's `config` that
`verificar_configuracao_completa` inspects. -/
structure ClienteConfig where
  nome : Option String
  logo_url : Option String
  font_url_titulo : Option String
  font_url_texto : Option String
deriving DecidableEq

/-- `auto_post.py::verificar_configuracao_completa(config)`: all essential
keys present and truthy. -/
def verificar_configuracao_completa (c : ClienteConfig) : Bool :=
  sTruthy c.nome && sTruthy c.logo_url && sTruthy c.font_url_titulo
    && sTruthy c.font_url_texto

/-- A row of the `clientes` table with its feeds. -/
structure Cliente where
  id : String
  config : ClienteConfig
  feeds : List Feed
deriving DecidableEq

/-- Outcome of the render + upload collaborators for one item: the image
generation (`gerar_imagem_noticia`) may raise, the hosting upload may
raise, or both complete. -/
inductive Outcome where
  | renderFail
  | uploadFail
  | ok
deriving DecidableEq

/-- Observable side effects of one cycle: compositor invocation, transport
upload, and ledger commit, tagged with the client and the item link. -/
inductive Event where
  | render (cliente : String) (link : String)
  | upload (cliente : String) (link : String)
  | commit (cliente : String) (link : String)
deriving DecidableEq

/-- The link an event is about. -/
def Event.link : Event → String
  | .render _ l => l
  | .upload _ l => l
  | .commit _ l => l

/-- `auto_post.py::salvar_link_postado_db` together with
`links_postados.add(...)`: insert-if-absent (`ON CONFLICT DO NOTHING` /
Python set add). -/
def salvar_link_postado_db (link : String) (links : List String) :
    List String :=
  if link ∈ links then links else link :: links

/-- Fetch one feed against the current posted-links set. -/
def fetchPosts (feed : Feed) (links_postados : List String) : List Post :=
  match feed.content with
  | .rss bozo entries => processar_feed_rss bozo entries links_postados
  | .json payload => processar_feed_json payload links_postados

/-- The item loop of `iniciar_automacao`: render, upload, then commit; any
error breaks out of the remaining posts of this feed without committing. -/
def processPosts (outcome : String → Outcome) (cid : String) :
    List Post → List String → List String × List Event
  | [], links => (links, [])
  | p :: ps, links =>
    match outcome p.link with
    | .renderFail => (links, [.render cid p.link])
    | .uploadFail => (links, [.render cid p.link, .upload cid p.link])
    | .ok =>
      let links' := salvar_link_postado_db p.link links
      let r := processPosts outcome cid ps links'
      (r.1, .render cid p.link :: .upload cid p.link :: .commit cid p.link
        :: r.2)

/-- One feed of one client: fetch, then process the new posts oldest-first
(`for post in reversed(posts_para_gerar)`). -/
def runFeed (outcome : String → Outcome) (cid : String) (feed : Feed)
    (links : List String) : List String × List Event :=
  processPosts outcome cid (fetchPosts feed links).reverse links

/-- The feed loop of one client. -/
def runFeeds (outcome : String → Outcome) (cid : String) :
    List Feed → List String → List String × List Event
  | [], links => (links, [])
  | f :: fs, links =>
    let r := runFeed outcome cid f links
    let r' := runFeeds outcome cid fs r.1
    (r'.1, r.2 ++ r'.2)

/-- One client: skipped entirely when its configuration is incomplete. -/
def runCliente (outcome : String → Outcome) (c : Cliente)
    (links : List String) : List String × List Event :=
  if verificar_configuracao_completa c.config then
    runFeeds outcome c.id c.feeds links
  else (links, [])

/-- The client loop. -/
def runClientes (outcome : String → Outcome) :
    List Cliente → List String → List String × List Event
  | [], links => (links, [])
  | c :: cs, links =>
    let r := runCliente outcome c links
    let r' := runClientes outcome cs r.1
    (r'.1, r.2 ++ r'.2)

/-- `auto_post.py::iniciar_automacao()` for one cycle: load the posted-links
ledger, then run every client; returns the final ledger and the event
trace. -/
def iniciar_automacao (outcome : String → Outcome) (clientes : List Cliente)
    (links_iniciais : List String) : List String × List Event :=
  runClientes outcome clientes links_iniciais

end AutoPost

namespace AutoPost

theorem mkPostRss_not_mem (links : List String) (e : FPEntry) (p : Post)
    (h : mkPostRss links e = some p) : p.link ∉ links := by
  unfold mkPostRss at h
  split at h
  · split at h
    · split at h
      · exact absurd h (by simp)
      · cases h
        assumption
    · exact absurd h (by simp)
  · exact absurd h (by simp)

theorem mkPostJson_not_mem (links : List String) (e : JEntry) (p : Post)
    (h : mkPostJson links e = some p) : p.link ∉ links := by
  unfold mkPostJson at h
  split at h
  · split at h
    · split at h
      · exact absurd h (by simp)
      · cases h
        assumption
    · exact absurd h (by simp)
  · exact absurd h (by simp)

/-- Both fetchers filter against the posted-links set: every produced post
carries a fresh link. -/
theorem fetchPosts_not_mem (feed : Feed) (links : List String) (p : Post)
    (h : p ∈ fetchPosts feed links) : p.link ∉ links := by
  rcases feed with ⟨url, content⟩
  rcases content with ⟨bozo, entries⟩ | ⟨payload⟩
  · simp only [fetchPosts, processar_feed_rss] at h
    split at h
    · exact absurd h (List.not_mem_nil p)
    · rcases List.mem_filterMap.mp h with ⟨e, _, he⟩
      exact mkPostRss_not_mem links e p he
  · rcases payload with _ | (xs | ⟨itemsF, articlesF⟩)
    · simp only [fetchPosts, processar_feed_json] at h
      exact absurd h (List.not_mem_nil p)
    · simp only [fetchPosts, processar_feed_json] at h
      exact absurd h (List.not_mem_nil p)
    · simp only [fetchPosts, processar_feed_json] at h
      split at h
      · rcases List.mem_filterMap.mp h with ⟨e, _, he⟩
        exact mkPostJson_not_mem links e p he
      · exact absurd h (List.not_mem_nil p)

theorem salvar_subset (l : String) (links : List String) :
    links ⊆ salvar_link_postado_db l links := by
  unfold salvar_link_postado_db
  split
  · exact fun a ha => ha
  · exact fun a ha => List.mem_cons_of_mem _ ha

theorem processPosts_subset (o : String → Outcome) (cid : String) :
    ∀ (ps : List Post) (links : List String),
      links ⊆ (processPosts o cid ps links).1
  | [], _ => fun _ ha => ha
  | p :: ps, links => by
    intro a ha
    unfold processPosts
    cases ho : o p.link with
    | renderFail => exact ha
    | uploadFail => exact ha
    | ok =>
      exact processPosts_subset o cid ps (salvar_link_postado_db p.link links)
        (salvar_subset p.link links ha)

theorem processPosts_event_link (o : String → Outcome) (cid : String) :
    ∀ (ps : List Post) (links : List String) (ev : Event),
      ev ∈ (processPosts o cid ps links).2 → ∃ p ∈ ps, ev.link = p.link
  | [], links, ev => by
    intro h
    exact absurd h (List.not_mem_nil ev)
  | p :: ps, links, ev => by
    intro h
    unfold processPosts at h
    cases ho : o p.link with
    | renderFail =>
      rw [ho] at h
      rcases List.mem_singleton.mp h with rfl
      exact ⟨p, List.mem_cons_self p ps, rfl⟩
    | uploadFail =>
      rw [ho] at h
      rcases List.mem_cons.mp h with rfl | h
      · exact ⟨p, List.mem_cons_self p ps, rfl⟩
      · rcases List.mem_singleton.mp h with rfl
        exact ⟨p, List.mem_cons_self p ps, rfl⟩
    | ok =>
      rw [ho] at h
      simp only [List.mem_cons] at h
      rcases h with rfl | rfl | rfl | h
      · exact ⟨p, List.mem_cons_self p ps, rfl⟩
      · exact ⟨p, List.mem_cons_self p ps, rfl⟩
      · exact ⟨p, List.mem_cons_self p ps, rfl⟩
      · rcases processPosts_event_link o cid ps
          (salvar_link_postado_db p.link links) ev h with ⟨q, hq, hl⟩
        exact ⟨q, List.mem_cons_of_mem p hq, hl⟩

/-- No event of one feed run concerns a link that was already in the ledger
when the feed was fetched. -/
theorem runFeed_event (o : String → Outcome) (cid : String) (feed : Feed)
    (links : List String) (ev : Event) (h : ev ∈ (runFeed o cid feed links).2) :
    ev.link ∉ links := by
  unfold runFeed at h
  rcases processPosts_event_link o cid (fetchPosts feed links).reverse links ev h
    with ⟨p, hp, hl⟩
  rw [hl]
  exact fetchPosts_not_mem feed links p (List.mem_reverse.mp hp)

theorem runFeed_subset (o : String → Outcome) (cid : String) (feed : Feed)
    (links : List String) : links ⊆ (runFeed o cid feed links).1 :=
  processPosts_subset o cid (fetchPosts feed links).reverse links

theorem runFeeds_subset (o : String → Outcome) (cid : String) :
    ∀ (fs : List Feed) (links : List String),
      links ⊆ (runFeeds o cid fs links).1
  | [], _ => fun _ ha => ha
  | f :: fs, links => fun a ha =>
    runFeeds_subset o cid fs (runFeed o cid f links).1
      (runFeed_subset o cid f links ha)

theorem runFeeds_event (o : String → Outcome) (cid : String) :
    ∀ (fs : List Feed) (links : List String) (ev : Event),
      ev ∈ (runFeeds o cid fs links).2 → ev.link ∉ links
  | [], links, ev => fun h => absurd h (List.not_mem_nil ev)
  | f :: fs, links, ev => by
    intro h hmem
    unfold runFeeds at h
    rcases List.mem_append.mp h with h | h
    · exact runFeed_event o cid f links ev h hmem
    · exact runFeeds_event o cid fs (runFeed o cid f links).1 ev h
        (runFeed_subset o cid f links hmem)

theorem runCliente_subset (o : String → Outcome) (c : Cliente)
    (links : List String) : links ⊆ (runCliente o c links).1 := by
  unfold runCliente
  split
  · exact runFeeds_subset o c.id c.feeds links
  · exact fun _ ha => ha

theorem runCliente_event (o : String → Outcome) (c : Cliente)
    (links : List String) (ev : Event) (h : ev ∈ (runCliente o c links).2) :
    ev.link ∉ links := by
  unfold runCliente at h
  split at h
  · exact runFeeds_event o c.id c.feeds links ev h
  · exact absurd h (List.not_mem_nil ev)

theorem runClientes_subset (o : String → Outcome) :
    ∀ (cs : List Cliente) (links : List String),
      links ⊆ (runClientes o cs links).1
  | [], _ => fun _ ha => ha
  | c :: cs, links => fun a ha =>
    runClientes_subset o cs (runCliente o c links).1
      (runCliente_subset o c links ha)

/-- Core dedup property: no event of a whole cycle concerns a link that was
in the ledger at the start of the cycle. -/
theorem runClientes_event (o : String → Outcome) :
    ∀ (cs : List Cliente) (links : List String) (ev : Event),
      ev ∈ (runClientes o cs links).2 → ev.link ∉ links
  | [], links, ev => fun h => absurd h (List.not_mem_nil ev)
  | c :: cs, links, ev => by
    intro h hmem
    unfold runClientes at h
    rcases List.mem_append.mp h with h | h
    · exact runCliente_event o c links ev h hmem
    · exact runClientes_event o cs (runCliente o c links).1 ev h
        (runCliente_subset o c links hmem)

end AutoPost

namespace AutoPost

/-- A commit event is only ever emitted for an item whose render and upload
both completed. -/
theorem processPosts_commit_ok (o : String → Outcome) (cid : String) :
    ∀ (ps : List Post) (links : List String) (c l : String),
      Event.commit c l ∈ (processPosts o cid ps links).2 → o l = .ok
  | [], links, c, l => fun h => absurd h (List.not_mem_nil _)
  | p :: ps, links, c, l => by
    intro h
    unfold processPosts at h
    cases ho : o p.link with
    | renderFail =>
      rw [ho] at h
      simp at h
    | uploadFail =>
      rw [ho] at h
      simp at h
    | ok =>
      rw [ho] at h
      simp only [List.mem_cons] at h
      rcases h with h | h | h | h
      · exact absurd h (by simp)
      · exact absurd h (by simp)
      · rcases Event.commit.inj h with ⟨rfl, rfl⟩
        exact ho
      · exact processPosts_commit_ok o cid ps
          (salvar_link_postado_db p.link links) c l h

theorem runFeeds_commit_ok (o : String → Outcome) (cid : String) :
    ∀ (fs : List Feed) (links : List String) (c l : String),
      Event.commit c l ∈ (runFeeds o cid fs links).2 → o l = .ok
  | [], links, c, l => fun h => absurd h (List.not_mem_nil _)
  | f :: fs, links, c, l => by
    intro h
    unfold runFeeds at h
    rcases List.mem_append.mp h with h | h
    · exact processPosts_commit_ok o cid _ links c l h
    · exact runFeeds_commit_ok o cid fs (runFeed o cid f links).1 c l h

theorem runClientes_commit_ok (o : String → Outcome) :
    ∀ (cs : List Cliente) (links : List String) (c l : String),
      Event.commit c l ∈ (runClientes o cs links).2 → o l = .ok
  | [], links, c, l => fun h => absurd h (List.not_mem_nil _)
  | cc :: cs, links, c, l => by
    intro h
    unfold runClientes at h
    rcases List.mem_append.mp h with h | h
    · unfold runCliente at h
      split at h
      · exact runFeeds_commit_ok o cc.id cc.feeds links c l h
      · exact absurd h (List.not_mem_nil _)
    · exact runClientes_commit_ok o cs (runCliente o cc links).1 c l h

/-- Every prefix of the trace that contains a commit for `(c, l)` already
contains the corresponding upload: commits happen only after uploads. -/
def CommitAfterUpload (tr : List Event) : Prop :=
  ∀ (c l : String) (n : Nat), Event.commit c l ∈ tr.take n →
    Event.upload c l ∈ tr.take n

theorem cau_nil : CommitAfterUpload [] := by
  intro c l n h
  simp at h

theorem cau_append {t1 t2 : List Event} (h1 : CommitAfterUpload t1)
    (h2 : CommitAfterUpload t2) : CommitAfterUpload (t1 ++ t2) := by
  intro c l n hmem
  rw [List.take_append_eq_append_take] at hmem ⊢
  rcases List.mem_append.mp hmem with h | h
  · exact List.mem_append.mpr (Or.inl (h1 c l n h))
  · exact List.mem_append.mpr (Or.inr (h2 c l _ h))

theorem cau_block1 (cid lk : String) :
    CommitAfterUpload [Event.render cid lk] := by
  intro c l n h
  have hmem := List.take_subset n _ h
  simp at hmem

theorem cau_block2 (cid lk : String) :
    CommitAfterUpload [Event.render cid lk, Event.upload cid lk] := by
  intro c l n h
  have hmem := List.take_subset n _ h
  simp at hmem

theorem cau_block3 (cid lk : String) :
    CommitAfterUpload
      [Event.render cid lk, Event.upload cid lk, Event.commit cid lk] := by
  intro c l n h
  match n with
  | 0 => simp at h
  | 1 => simp [List.take] at h
  | 2 => simp [List.take] at h
  | m + 3 =>
    simp [List.take] at h ⊢
    rcases h with ⟨rfl, rfl⟩
    simp

theorem processPosts_cau (o : String → Outcome) (cid : String) :
    ∀ (ps : List Post) (links : List String),
      CommitAfterUpload (processPosts o cid ps links).2
  | [], links => cau_nil
  | p :: ps, links => by
    unfold processPosts
    cases ho : o p.link with
    | renderFail => exact cau_block1 cid p.link
    | uploadFail => exact cau_block2 cid p.link
    | ok =>
      show CommitAfterUpload
        ([Event.render cid p.link, Event.upload cid p.link,
          Event.commit cid p.link]
          ++ (processPosts o cid ps (salvar_link_postado_db p.link links)).2)
      exact cau_append (cau_block3 cid p.link) (processPosts_cau o cid ps _)

theorem runFeeds_cau (o : String → Outcome) (cid : String) :
    ∀ (fs : List Feed) (links : List String),
      CommitAfterUpload (runFeeds o cid fs links).2
  | [], links => cau_nil
  | f :: fs, links => by
    unfold runFeeds
    exact cau_append (processPosts_cau o cid _ links)
      (runFeeds_cau o cid fs (runFeed o cid f links).1)

theorem runClientes_cau (o : String → Outcome) :
    ∀ (cs : List Cliente) (links : List String),
      CommitAfterUpload (runClientes o cs links).2
  | [], links => cau_nil
  | c :: cs, links => by
    unfold runClientes
    refine cau_append ?_ (runClientes_cau o cs (runCliente o c links).1)
    unfold runCliente
    split
    · exact runFeeds_cau o c.id c.feeds links
    · exact cau_nil

/-- A link whose item never completed render + upload is in the final ledger
iff it was there initially. -/
theorem processPosts_ledger (o : String → Outcome) (cid : String) (l : String)
    (hl : o l ≠ .ok) :
    ∀ (ps : List Post) (links : List String),
      l ∈ (processPosts o cid ps links).1 ↔ l ∈ links
  | [], links => Iff.rfl
  | p :: ps, links => by
    unfold processPosts
    cases ho : o p.link with
    | renderFail => exact Iff.rfl
    | uploadFail => exact Iff.rfl
    | ok =>
      have hne : l ≠ p.link := fun he => hl (by rw [he, ho])
      have ih := processPosts_ledger o cid l hl ps
        (salvar_link_postado_db p.link links)
      refine Iff.trans ih ?_
      unfold salvar_link_postado_db
      split
      · exact Iff.rfl
      · simp [List.mem_cons, hne]

theorem runFeeds_ledger (o : String → Outcome) (cid : String) (l : String)
    (hl : o l ≠ .ok) :
    ∀ (fs : List Feed) (links : List String),
      l ∈ (runFeeds o cid fs links).1 ↔ l ∈ links
  | [], links => Iff.rfl
  | f :: fs, links =>
    Iff.trans (runFeeds_ledger o cid l hl fs (runFeed o cid f links).1)
      (processPosts_ledger o cid l hl (fetchPosts f links).reverse links)

theorem runClientes_ledger (o : String → Outcome) (l : String)
    (hl : o l ≠ .ok) :
    ∀ (cs : List Cliente) (links : List String),
      l ∈ (runClientes o cs links).1 ↔ l ∈ links
  | [], links => Iff.rfl
  | c :: cs, links => by
    refine Iff.trans
      (runClientes_ledger o l hl cs (runCliente o c links).1) ?_
    unfold runCliente
    split
    · exact runFeeds_ledger o c.id l hl c.feeds links
    · exact Iff.rfl

/-- Appending client lists composes the cycle: the second batch starts from
the ledger the first batch produced, and the traces concatenate. -/
theorem runClientes_append (o : String → Outcome) :
    ∀ (cs1 cs2 : List Cliente) (links : List String),
      runClientes o (cs1 ++ cs2) links
        = ((runClientes o cs2 (runClientes o cs1 links).1).1,
            (runClientes o cs1 links).2
              ++ (runClientes o cs2 (runClientes o cs1 links).1).2)
  | [], cs2, links => by simp [runClientes]
  | c :: cs1, cs2, links => by
    have ih := runClientes_append o cs1 cs2 (runCliente o c links).1
    simp only [List.cons_append, runClientes, List.append_eq]
    rw [ih]
    simp [List.append_assoc]

end AutoPost

/-! ### Concrete pipeline fixtures -/

/-- A well-formed JSON feed entry with link `"X"`. -/
def entryX : JEntry :=
  ⟨some "X", none, some "T", some "S", none, none, none, none⟩

/-- A JSON feed whose payload is an object with a one-entry `items` array. -/
def feedX : AutoPost.Feed :=
  ⟨"http://feedx",
    AutoPost.FeedContent.json (some (JTop.tobj (some (JVal.jlist [entryX])) none))⟩

/-- A complete client configuration. -/
def configOk : AutoPost.ClienteConfig :=
  ⟨some "n", some "logo", some "ft", some "fr"⟩

/-- Two distinct tenants registered for the same feed. -/
def cliente1 : AutoPost.Cliente := ⟨"c1", configOk, [feedX]⟩

def cliente2 : AutoPost.Cliente := ⟨"c2", configOk, [feedX]⟩

/-- Environment in which every render and upload succeeds. -/
def outcomeOk : String → AutoPost.Outcome := fun _ => AutoPost.Outcome.ok

/-- Claim C1: for every source link already committed to the dedup ledger,
a full pipeline cycle never invokes the compositor nor the publish
transport for that link — the dedup check filters the item out before
rendering, for every client, feed, and render/upload environment. -/
theorem claim1_pipeline_idempotence (outcome : String → AutoPost.Outcome)
    (clientes : List AutoPost.Cliente) (links0 : List String) (l : String)
    (h : l ∈ links0) (c : String) :
    AutoPost.Event.render c l
        ∉ (AutoPost.iniciar_automacao outcome clientes links0).2
    ∧ AutoPost.Event.upload c l
        ∉ (AutoPost.iniciar_automacao outcome clientes links0).2 :=
  ⟨fun hev => AutoPost.runClientes_event outcome clientes links0 _ hev h,
   fun hev => AutoPost.runClientes_event outcome clientes links0 _ hev h⟩

/-- Witness for C1: with link `"X"` pre-committed, the cycle emits no render
event for it. -/
theorem claim1_pipeline_idempotence_witness :
    AutoPost.Event.render "c1" "X"
      ∉ (AutoPost.iniciar_automacao outcomeOk [cliente1] ["X"]).2 :=
  (claim1_pipeline_idempotence outcomeOk [cliente1] ["X"] "X" (by decide) "c1").1

/-- Claim C2: the ledger commit runs only after the hosting upload
completed — every commit event belongs to an item whose render and upload
both succeeded, every trace prefix containing a commit already contains the
matching upload, and an item whose render or upload failed leaves the
ledger unchanged for its link (eligible for retry next cycle). -/
theorem claim2_commit_after_publish (outcome : String → AutoPost.Outcome)
    (clientes : List AutoPost.Cliente) (links0 : List String) :
    (∀ c l, AutoPost.Event.commit c l
          ∈ (AutoPost.iniciar_automacao outcome clientes links0).2 →
        outcome l = AutoPost.Outcome.ok)
    ∧ (∀ (c l : String) (n : Nat),
        AutoPost.Event.commit c l
            ∈ ((AutoPost.iniciar_automacao outcome clientes links0).2.take n) →
        AutoPost.Event.upload c l
            ∈ ((AutoPost.iniciar_automacao outcome clientes links0).2.take n))
    ∧ (∀ l, outcome l ≠ AutoPost.Outcome.ok →
        (l ∈ (AutoPost.iniciar_automacao outcome clientes links0).1 ↔
          l ∈ links0)) :=
  ⟨fun c l h => AutoPost.runClientes_commit_ok outcome clientes links0 c l h,
   fun c l n h => AutoPost.runClientes_cau outcome clientes links0 c l n h,
   fun l hl => AutoPost.runClientes_ledger outcome l hl clientes links0⟩

/-- Witness for C2: the concrete cycle commits `"X"`, and indeed both its
render and upload succeeded. -/
theorem claim2_commit_after_publish_witness :
    outcomeOk "X" = AutoPost.Outcome.ok :=
  (claim2_commit_after_publish outcomeOk [cliente1] []).1 "c1" "X" (by decide)

/-- Claim C3 (counterexample): the ledger (`links_postados` table and set)
is keyed by link alone, not by `(tenant_id, source_link)`. After tenant
`c1` commits link `"X"`, tenant `c2` — whose feed offers the same link and
which, run alone, would render it — is suppressed. -/
theorem claim3_counterexample :
    AutoPost.Event.commit "c1" "X"
        ∈ (AutoPost.iniciar_automacao outcomeOk [cliente1, cliente2] []).2
    ∧ AutoPost.Event.render "c2" "X"
        ∉ (AutoPost.iniciar_automacao outcomeOk [cliente1, cliente2] []).2
    ∧ AutoPost.Event.render "c2" "X"
        ∈ (AutoPost.iniciar_automacao outcomeOk [cliente2] []).2 := by
  decide

/-- Claim C3 (amended): deduplication is scoped globally by `source_link`
alone — once a link enters the ledger while processing one batch of
clients, no later client renders or uploads it in the same cycle. -/
theorem claim3_global_dedup (outcome : String → AutoPost.Outcome)
    (cs1 cs2 : List AutoPost.Cliente) (links0 : List String) :
    ((AutoPost.iniciar_automacao outcome (cs1 ++ cs2) links0).2
      = (AutoPost.iniciar_automacao outcome cs1 links0).2
        ++ (AutoPost.runClientes outcome cs2
              (AutoPost.iniciar_automacao outcome cs1 links0).1).2)
    ∧ ∀ l, l ∈ (AutoPost.iniciar_automacao outcome cs1 links0).1 →
        ∀ c, AutoPost.Event.render c l
          ∉ (AutoPost.runClientes outcome cs2
              (AutoPost.iniciar_automacao outcome cs1 links0).1).2 := by
  refine ⟨?_, ?_⟩
  · show (AutoPost.runClientes outcome (cs1 ++ cs2) links0).2 = _
    rw [AutoPost.runClientes_append outcome cs1 cs2 links0]
    rfl
  · intro l hl c hev
    exact AutoPost.runClientes_event outcome cs2 _ _ hev hl

/-- Witness for C3 (amended) at the concrete two-tenant cycle. -/
theorem claim3_global_dedup_witness :
    AutoPost.Event.render "c2" "X"
      ∉ (AutoPost.runClientes outcomeOk [cliente2]
          (AutoPost.iniciar_automacao outcomeOk [cliente1] []).1).2 :=
  (claim3_global_dedup outcomeOk [cliente1] [cliente2] []).2 "X" (by decide) "c2"

/-! ### JSON fetcher claims -/

/-- A JSON entry missing a required field: its link/url, title, or
summary/description/content chain is falsy, so
`if not all([link, titulo, texto]): continue` skips it. -/
def missingRequired (e : JEntry) : Prop :=
  sTruthy (pyOrS e.link e.url) = false
  ∨ sTruthy e.title = false
  ∨ sTruthy (pyOrS e.summary
      (pyOrS e.description (some (e.content.getD "")))) = false

theorem mkPostJson_none_of_missing (links : List String) (e : JEntry)
    (h : missingRequired e) : AutoPost.mkPostJson links e = none := by
  unfold AutoPost.mkPostJson
  rcases hL : pyOrS e.link e.url with _ | l
  · rfl
  rcases hT : e.title with _ | t
  · rfl
  rcases hX : pyOrS e.summary (pyOrS e.description (some (e.content.getD "")))
    with _ | x
  · rfl
  unfold missingRequired at h
  rw [hL, hT, hX] at h
  simp [sTruthy] at h
  rcases h with rfl | rfl | rfl <;> simp

/-- Claim C7: in a JSON feed delivered as an object with an `items` array,
an entry missing a required field (link/url, title, or
summary/description/content) is skipped individually — removing it from the
array does not change the fetcher's output, so the remaining well-formed
entries are all returned and no error aborts the feed. -/
theorem claim7_json_per_item_skip (xs ys : List JEntry) (e : JEntry)
    (links : List String) (h : missingRequired e) :
    AutoPost.processar_feed_json
        (some (JTop.tobj (some (JVal.jlist (xs ++ e :: ys))) none)) links
      = AutoPost.processar_feed_json
        (some (JTop.tobj (some (JVal.jlist (xs ++ ys))) none)) links := by
  have he := mkPostJson_none_of_missing links e h
  have hne : xs ++ e :: ys ≠ [] := by simp
  by_cases hxy : xs ++ ys = []
  · rcases List.append_eq_nil.mp hxy with ⟨rfl, rfl⟩
    simp [AutoPost.processar_feed_json, pyOrJ, jTruthy, he,
      List.filterMap_cons]
  · simp [AutoPost.processar_feed_json, pyOrJ, jTruthy, hne, hxy,
      List.filterMap_append, List.filterMap_cons, he]

/-- A JSON entry with a link and a summary but no `title`. -/
def entryNoTitle : JEntry :=
  ⟨some "Y", none, none, some "S", none, none, none, none⟩

/-- Witness for C7: dropping the title-less entry from a concrete feed
leaves the output unchanged. -/
theorem claim7_json_per_item_skip_witness :
    AutoPost.processar_feed_json
        (some (JTop.tobj (some (JVal.jlist ([entryX] ++ entryNoTitle :: []))) none)) []
      = AutoPost.processar_feed_json
        (some (JTop.tobj (some (JVal.jlist ([entryX] ++ []))) none)) [] :=
  claim7_json_per_item_skip [entryX] [] entryNoTitle []
    (Or.inr (Or.inl rfl))

/-- Claim C8 (code evaluation): `auto_post.py::processar_feed_json` calls
`noticias.get(...)` on the decoded document, so a top-level JSON array —
although clearly intended to be supported by the `or noticias` fallback and
the `isinstance(items, list)` guard — raises `AttributeError` and yields
`[]` even for a perfectly well-formed entry, while the same entry under an
object's `items` key is returned.  The dashboard helper
`app.py::processar_json_noticias` conversely accepts only a top-level
array. -/
theorem claim8_top_level_shapes :
    AutoPost.processar_feed_json (some (JTop.tlist [entryX])) [] = []
    ∧ AutoPost.processar_feed_json
        (some (JTop.tobj (some (JVal.jlist [entryX])) none)) []
      = [⟨"T", "S", "X"⟩]
    ∧ App.processar_json_noticias (JTop.tlist [entryX]) 5
      = [⟨"T", "S", "X", "", some ""⟩]
    ∧ App.processar_json_noticias (JTop.tobj (some (JVal.jlist [entryX])) none) 5
      = [] := by
  decide


theorem sTruthy_none : sTruthy none = false := rfl

namespace App

/-- The HTML body searched by the third image-resolution step:
`content:encoded` when present, else the description. -/
def bodyHtml (e : RssItem) : Option Html :=
  match e.contentEncoded with
  | some h => some h
  | none => e.description

end App

/-- An RSS item with no title, description, link, date, media-content,
enclosure or encoded content. -/
def itemBare : App.RssItem := ⟨none, none, none, none, none, none, none⟩

/-- Claim C9 (counterexample): an RSS item for which none of the three image
sources yields anything is NOT excluded from the fetcher's output — it is
returned with fallback title `"Sem título"` and image `None`. -/
theorem claim9_counterexample :
    App.mkNoticiaRss itemBare ∈ App.processar_feed_rss [itemBare] 5
    ∧ (App.mkNoticiaRss itemBare).imagem = none
    ∧ App.processar_feed_rss [itemBare] 5 ≠ [] := by
  decide

/-- Claim C9 (amended): the fetcher resolves each item's image by checking,
in order, the `media:content` url, then an enclosure whose type mentions
`image`, then the first `<img>` of the item's HTML body
(`content:encoded`, else the description), the first non-empty result
winning; an item for which none of the three yields an image is still
included in the output with image field `None`, not excluded. -/
theorem claim9_rss_image_resolution (e : App.RssItem) :
    (∀ u, sTruthy (some u) = true → e.mediaContent = some ⟨some u⟩ →
        App.resolveImagem e = some u)
    ∧ (e.mediaContent = none → ∀ en, e.enclosure = some en →
        App.strContains (en.typeAttr.getD "") "image" = true →
        sTruthy en.url = true → App.resolveImagem e = en.url)
    ∧ (e.mediaContent = none → e.enclosure = none →
        ∀ h i, App.bodyHtml e = some h → h.firstImg = some i →
        App.resolveImagem e = i.src)
    ∧ (e.mediaContent = none → e.enclosure = none → App.bodyHtml e = none →
        App.resolveImagem e = none)
    ∧ (∀ (items : List App.RssItem) (lim : Nat), e ∈ items.take lim →
        App.mkNoticiaRss e ∈ App.processar_feed_rss items lim) := by
  obtain ⟨ti, de, li, pu, mc, en, ce⟩ := e
  refine ⟨?_, ?_, ?_, ?_, ?_⟩
  · intro u hu hmc
    cases hmc
    simp [App.resolveImagem, hu]
  · intro hmc en' hen hc hu
    cases hmc
    cases hen
    simp [App.resolveImagem, sTruthy_none, hc, hu]
  · intro hmc hen h i hb hi
    cases hmc
    cases hen
    rcases ce with _ | ch
    · simp only [App.bodyHtml] at hb
      rcases de with _ | dh
      · exact absurd hb (by simp)
      · obtain rfl := Option.some.inj hb
        simp [App.resolveImagem, sTruthy_none, hi]
    · simp only [App.bodyHtml] at hb
      obtain rfl := Option.some.inj hb
      simp [App.resolveImagem, sTruthy_none, hi]
  · intro hmc hen hb
    cases hmc
    cases hen
    rcases ce with _ | ch
    · simp only [App.bodyHtml] at hb
      rcases de with _ | dh
      · simp [App.resolveImagem, sTruthy_none]
      · exact absurd hb (by simp)
    · simp only [App.bodyHtml] at hb
      exact absurd hb (by simp)
  · intro items lim hmem
    exact List.mem_map.mpr ⟨_, hmem, rfl⟩

/-- An RSS item carrying only a `media:content` url. -/
def itemMedia : App.RssItem :=
  ⟨none, none, none, none, some ⟨some "u1"⟩, none, none⟩

/-- Witness for C9 at a concrete item: the media-content url wins. -/
theorem claim9_rss_image_resolution_witness :
    App.resolveImagem itemMedia = some "u1" :=
  (claim9_rss_image_resolution itemMedia).1 "u1" (by decide) rfl

namespace App

/-! ### PIL model: images carry the observables the claims are about
(size and mode). In-place drawing never changes the canvas geometry;
`paste` draws onto the base image and crops overflow, so it returns the
base canvas unchanged. -/

/-- `IMG_WIDTH, IMG_HEIGHT = 1080, 1080` in `app.py`. -/
def IMG_WIDTH : Nat := 1080

def IMG_HEIGHT : Nat := 1080

structure PILImage where
  width : Nat
  height : Nat
  mode : String
deriving DecidableEq

/-- `Image.new(mode, (w, h), color)`. -/
def PILImage.new (mode : String) (w h : Nat) : PILImage := ⟨w, h, mode⟩

/-- `img.resize((w, h))`. -/
def PILImage.resize (i : PILImage) (w h : Nat) : PILImage := ⟨w, h, i.mode⟩

/-- `base.paste(other, (x, y))`: draws in place, crops overflow — the base
canvas keeps its size and mode. -/
def PILImage.paste (base : PILImage) (other : PILImage) (x y : Int) :
    PILImage :=
  base

/-- `img.convert(mode)`. -/
def PILImage.convert (i : PILImage) (mode : String) : PILImage :=
  ⟨i.width, i.height, mode⟩

/-- `img.thumbnail((s, s))`: in-place shrink-to-fit; the result is only ever
pasted, so its exact aspect arithmetic never reaches the canvas. -/
def PILImage.thumbnail (i : PILImage) (s : Nat) : PILImage :=
  ⟨min s i.width, min s i.height, i.mode⟩

/-- `ImageOps.expand(img, border, fill)`: grows by the border width on every
side. -/
def expand (i : PILImage) (border : Nat) (fill : Nat × Nat × Nat) :
    PILImage :=
  ⟨i.width + 2 * border, i.height + 2 * border, i.mode⟩

/-- `draw.rectangle(..., fill)`: in place, canvas unchanged. -/
def drawRect (i : PILImage) (fill : Nat × Nat × Nat) : PILImage := i

/-- `draw.rounded_rectangle(..., radius, fill)`: in place. -/
def drawRoundedRect (i : PILImage) (radius : Nat) (fill : Nat × Nat × Nat) :
    PILImage := i

/-- A font as `carregar_fonte` produces it: a truetype font, or PIL's
default bitmap font. -/
inductive Font where
  | truetype (path : String) (size : Nat)
  | default
deriving DecidableEq

/-- `draw.text(..., font, fill, ...)`: in place. -/
def drawText (i : PILImage) (font : Font) (text : PyStr)
    (fill : Nat × Nat × Nat) : PILImage := i

/-- The filesystem/font-engine facts `carregar_fonte` and the text measurer
depend on: whether the uploaded font file exists, whether loading it (resp.
the system font) succeeds, and the glyph-width measurement. -/
structure FontEnv where
  uploadExists : String → Bool
  uploadLoads : String → Bool
  systemLoads : String → Bool
  textWidth : Font → PyStr → Nat

/-- `app.py::carregar_fonte(caminho_fonte, tamanho)`: try the uploads
folder, then the system font; any failure falls back to
`ImageFont.load_default()`. -/
def carregar_fonte (env : FontEnv) (caminho_fonte : String) (tamanho : Nat) :
    Font :=
  if env.uploadExists caminho_fonte then
    (if env.uploadLoads caminho_fonte then
      Font.truetype ("uploads/fonts/" ++ caminho_fonte) tamanho
    else Font.default)
  else if env.systemLoads caminho_fonte then
    Font.truetype caminho_fonte tamanho
  else Font.default

/-- One hexadecimal digit of Python `int(s, 16)`. -/
def hexDigitVal (c : Char) : Option Nat :=
  if '0' ≤ c ∧ c ≤ '9' then some (c.toNat - '0'.toNat)
  else if 'a' ≤ c ∧ c ≤ 'f' then some (c.toNat - 'a'.toNat + 10)
  else if 'A' ≤ c ∧ c ≤ 'F' then some (c.toNat - 'A'.toNat + 10)
  else none

/-- Python `int(s, 16)`: fails on the empty string or a non-hex character
(`ValueError`, caught further up). -/
def pyIntHex (cs : List Char) : Option Nat :=
  match cs with
  | [] => none
  | _ :: _ =>
    cs.foldlM (fun acc c => (hexDigitVal c).map (fun d => 16 * acc + d)) 0

/-- `app.py::hex_para_rgb(cor_hex)`: strip leading `#`, then parse the three
2-character slices (Python slicing may hand short or empty slices to
`int`). -/
def hex_para_rgb (cor_hex : String) : Option (Nat × Nat × Nat) :=
  let cs := cor_hex.toList.dropWhile (fun c => c == '#')
  (pyIntHex (cs.take 2)).bind fun r =>
  (pyIntHex ((cs.drop 2).take 2)).bind fun g =>
  (pyIntHex ((cs.drop 4).take 2)).bind fun b =>
  some (r, g, b)

/-- The fields of the client `config` dictionary read by
`criar_imagem_post`; `none` = key absent (the code's `.get` default
applies). -/
structure RenderCfg where
  logo_filename : Option String
  cor_fundo : Option String
  cor_texto : Option String
  cor_destaque : Option String
  cor_borda : Option String
  cor_categoria : Option String
  espessura_borda : Option Nat
  arredondamento_borda : Option Nat
  fonte_titulo : Option String
  fonte_rodape : Option String
  tamanho_fonte_titulo : Option Nat
  tamanho_fonte_rodape : Option Nat
  texto_rodape : Option String
deriving DecidableEq

/-- The encoded artifact: `imagem_final.convert('RGB').save(buffer,
format='JPEG', quality=95)`. -/
structure EncodedImage where
  width : Nat
  height : Nat
  mode : String
  format : String
  quality : Nat
deriving DecidableEq

def encodeJPEG (i : PILImage) : EncodedImage :=
  ⟨i.width, i.height, i.mode, "JPEG", 95⟩

/-- `app.py::criar_imagem_post(config, url_imagem, titulo_post, categoria)`.
`imagem_noticia` is the (possibly failed) download of `url_imagem`;
`logoFile` the result of `Image.open` on the configured logo (`none` = the
open raised, caught by the enclosing `except` → `None`); when no
`logo_filename` is configured a red 100×100 fallback logo is built. Any
exception inside the `try` (bad hex colors, failed logo open) yields
`none`; font loading never fails (claim C6). -/
def criar_imagem_post (env : FontEnv) (config : RenderCfg)
    (imagem_noticia : Option PILImage) (logoFile : Option PILImage)
    (titulo_post : String) (categoria : Option String) :
    Option EncodedImage :=
  (match config.logo_filename with
   | some _ => logoFile
   | none => some (PILImage.new "RGBA" 100 100)).bind fun logo =>
  imagem_noticia.bind fun imagem_n =>
  (hex_para_rgb (config.cor_fundo.getD "#FFFFFF")).bind fun cor_fundo =>
  (let base := PILImage.new "RGBA" IMG_WIDTH IMG_HEIGHT
   match categoria with
   | some cat =>
     (hex_para_rgb (config.cor_categoria.getD "#ff0000")).bind fun cor_cat =>
     (hex_para_rgb (config.cor_texto.getD "#000000")).bind fun cor_txt =>
     some (drawText (drawRect base cor_cat)
         (carregar_fonte env (config.fonte_titulo.getD "Arial") 25)
         (pyUpper cat.toList) cor_txt,
       (50 + 40 + 10 : Int))
   | none => some (base, (50 : Int))).bind fun st =>
  (let imagem_resized := PILImage.resize imagem_n 980 551
   let pos_img_x : Int := ((IMG_WIDTH : Int) - 980) / 2
   let comFoto0 := PILImage.paste st.1 imagem_resized pos_img_x st.2
   let espessura := config.espessura_borda.getD 5
   if 0 < espessura then
     (hex_para_rgb (config.cor_borda.getD "#000000")).bind fun cor_borda =>
     some (PILImage.paste comFoto0
       (expand imagem_resized espessura cor_borda)
       (pos_img_x - (espessura : Int)) (st.2 - (espessura : Int)))
   else some comFoto0).bind fun comFoto =>
  (hex_para_rgb (config.cor_destaque.getD "#d90429")).bind fun cor_destaque =>
  (hex_para_rgb (config.cor_texto.getD "#000000")).bind fun cor_texto =>
  let fonte_titulo := carregar_fonte env (config.fonte_titulo.getD "Arial")
    (config.tamanho_fonte_titulo.getD 50)
  let fonte_rodape := carregar_fonte env (config.fonte_rodape.getD "Arial")
    (config.tamanho_fonte_rodape.getD 30)
  let comPainel := drawRoundedRect comFoto
    (config.arredondamento_borda.getD 20) cor_destaque
  let comLogo := PILImage.paste comPainel (PILImage.thumbnail logo 220)
    (((IMG_WIDTH : Int) - 220) / 2) (620 - 110 - 20)
  let linhas := processar_texto (env.textWidth fonte_titulo) 900
    (pyUpper titulo_post.toList)
  let comTitulo := linhas.foldl
    (fun img linha => drawText img fonte_titulo linha cor_texto) comLogo
  let comRodape := drawText comTitulo fonte_rodape
    (config.texto_rodape.getD "@SUAEMPRESA").toList cor_texto
  some (encodeJPEG (PILImage.convert comRodape "RGB"))

end App

/-- Drawing text lines never changes the canvas. -/
theorem drawFold (f : App.Font) (col : Nat × Nat × Nat) :
    ∀ (l : List PyStr) (i : App.PILImage),
      l.foldl (fun img linha => App.drawText img f linha col) i = i
  | [], _ => rfl
  | x :: l, i => drawFold f col l i

/-- Claim C5: whenever the compositor succeeds, the encoded artifact is
exactly 1080×1080 in RGB — independent of the title length, the source
photo's dimensions, the logo, the border width, or a category banner. -/
theorem claim5_canvas_size (env : App.FontEnv) (config : App.RenderCfg)
    (imagem_noticia logoFile : Option App.PILImage) (titulo : String)
    (categoria : Option String) (enc : App.EncodedImage)
    (h : App.criar_imagem_post env config imagem_noticia logoFile titulo
        categoria = some enc) :
    enc.width = 1080 ∧ enc.height = 1080 ∧ enc.mode = "RGB" := by
  unfold App.criar_imagem_post at h
  simp only [Option.bind_eq_some] at h
  obtain ⟨logo, -, imgn, -, cf, -, st, hst, comFoto, hif, cd, -, ct, -, hfin⟩
    := h
  obtain rfl := Option.some.inj hfin
  have hst1 : st.1 = App.PILImage.new "RGBA" 1080 1080 := by
    rcases categoria with _ | cat
    · obtain rfl := Option.some.inj hst
      rfl
    · simp only [Option.bind_eq_some] at hst
      obtain ⟨cc, -, ct2, -, hsome⟩ := hst
      obtain rfl := Option.some.inj hsome
      rfl
  have hfoto : comFoto.width = 1080 ∧ comFoto.height = 1080 := by
    split at hif
    · simp only [Option.bind_eq_some] at hif
      obtain ⟨cb, -, hsome⟩ := hif
      obtain rfl := Option.some.inj hsome
      simp only [App.PILImage.paste]
      rw [hst1]
      exact ⟨rfl, rfl⟩
    · obtain rfl := Option.some.inj hif
      simp only [App.PILImage.paste]
      rw [hst1]
      exact ⟨rfl, rfl⟩
  simp only [drawFold]
  simp only [App.drawText, App.PILImage.paste, App.drawRoundedRect,
    App.PILImage.convert, App.encodeJPEG]
  exact ⟨hfoto.1, hfoto.2, trivial⟩

/-- A font environment in which no font resource resolves, with character
counting as glyph measurement. -/
def envNoFonts : App.FontEnv :=
  ⟨fun _ => false, fun _ => false, fun _ => false, fun _ w => w.length⟩

/-- An empty client config: every key absent, every `.get` default used. -/
def cfgEmpty : App.RenderCfg :=
  ⟨none, none, none, none, none, none, none, none, none, none, none, none,
    none⟩

/-- A downloaded 640×480 source photo. -/
def fotoTest : App.PILImage := ⟨640, 480, "RGBA"⟩

/-- Witness for C5: a concrete successful render is 1080×1080 RGB. -/
theorem claim5_canvas_size_witness :
    (⟨1080, 1080, "RGB", "JPEG", 95⟩ : App.EncodedImage).width = 1080
    ∧ (⟨1080, 1080, "RGB", "JPEG", 95⟩ : App.EncodedImage).height = 1080
    ∧ (⟨1080, 1080, "RGB", "JPEG", 95⟩ : App.EncodedImage).mode = "RGB" :=
  claim5_canvas_size envNoFonts cfgEmpty (some fotoTest) none "Hello world"
    none ⟨1080, 1080, "RGB", "JPEG", 95⟩ (by decide)

/-- Claim C6 (counterexample): when neither the uploaded nor the system font
resolves, `carregar_fonte` silently substitutes the default bitmap font and
the compositor still succeeds — font failure is NOT a hard render
failure. -/
theorem claim6_counterexample :
    App.carregar_fonte envNoFonts "Arial" 50 = App.Font.default
    ∧ App.criar_imagem_post envNoFonts cfgEmpty (some fotoTest) none
        "Hello world" none
      = some ⟨1080, 1080, "RGB", "JPEG", 95⟩ := by
  decide

/-- Claim C6 (amended): font resolution failure falls back silently to
`ImageFont.load_default()`, and the compositor's result never depends on
the font environment at all — a render neither fails nor changes because a
font resource is missing or corrupt. -/
theorem claim6_font_fallback (env : App.FontEnv) (caminho : String)
    (tamanho : Nat) (h1 : env.uploadLoads caminho = false)
    (h2 : env.systemLoads caminho = false) :
    App.carregar_fonte env caminho tamanho = App.Font.default
    ∧ (∀ (env1 env2 : App.FontEnv) (config : App.RenderCfg)
        (im lo : Option App.PILImage) (t : String) (cat : Option String),
        App.criar_imagem_post env1 config im lo t cat
          = App.criar_imagem_post env2 config im lo t cat) := by
  constructor
  · unfold App.carregar_fonte
    rw [h1, h2]
    split <;> simp
  · intro env1 env2 config im lo t cat
    unfold App.criar_imagem_post
    simp only [drawFold]
    simp only [App.drawText]

/-- Witness for C6 at the concrete failing environment. -/
theorem claim6_font_fallback_witness :
    App.carregar_fonte envNoFonts "Arial" 50 = App.Font.default :=
  (claim6_font_fallback envNoFonts "Arial" 50 rfl rfl).1
